import Mathlib

/-!
# PrairieLearn Course Archiver — verification of the crawl/selection/resume logic

Shallow embedding of `src/scraper.py` and `src/utilities/fix_html_paths.py`.
Pure helper functions of the Python source are translated to executable Lean
functions; the filesystem, browser and HTTP layers are modelled as explicit
state (an `FS` record, an HTTP `oracle`, an abstract per-question `body`).
-/

namespace Archiver

/-! ## Python string primitives used by the source -/

/-- ASCII whitespace stripped by Python `str.strip()` / ignored by `int()`. -/
def isPyWhitespace (c : Char) : Bool :=
  c = ' ' || c = '\t' || c = '\n' || c = '\r' || c = '\x0b' || c = '\x0c'

/-- Python `str.strip()` on a character list. -/
def pyStripList (cs : List Char) : List Char :=
  ((cs.dropWhile isPyWhitespace).reverse.dropWhile isPyWhitespace).reverse

/-- Python `str.strip()`. -/
def pyStrip (s : String) : String :=
  String.mk (pyStripList s.toList)

/-- Python substring containment `needle in hay` over char lists. -/
def containsSub (needle : List Char) : List Char → Bool
  | [] => needle.isPrefixOf []
  | c :: t => needle.isPrefixOf (c :: t) || containsSub needle t

/-- Python substring containment on strings. -/
def strContains (hay needle : String) : Bool :=
  containsSub needle.toList hay.toList

/-- Value of a decimal digit run (the run is known to be all digits). -/
def natOfDigits (ds : List Char) : Nat :=
  ds.foldl (fun a c => a * 10 + (c.toNat - 48)) 0

/-- Helper for `pyInt`: a non-empty all-digit run parses. -/
def digitsToInt (ds : List Char) (sign : Int) : Option Int :=
  if ds ≠ [] ∧ ds.all Char.isDigit then some (sign * (natOfDigits ds : Int)) else none

/-- Python `int(s)` on a decimal string: surrounding whitespace ignored,
optional sign, then a non-empty digit run; anything else raises `ValueError`
(modelled as `none`). -/
def pyInt (s : String) : Option Int :=
  match pyStripList s.toList with
  | '+' :: ds => digitsToInt ds 1
  | '-' :: ds => digitsToInt ds (-1)
  | ds => digitsToInt ds 1

/-- Python slice `s[:k]` on a char list, with Python's negative-index
semantics: a negative bound counts from the end, clamped at zero. -/
def pySliceTo (l : List Char) (k : Int) : List Char :=
  if 0 ≤ k then l.take k.toNat else l.take ((l.length : Int) + k).toNat

/-! ## MD5 (`hashlib.md5(text.encode()).hexdigest()`)

The scraper derives filename hash suffixes from `hashlib.md5`.  The full MD5
algorithm is embedded here over `Nat` bytes with explicit `% 2^32` wrapping. -/

/-- UTF-8 encoding of one scalar value (Python `str.encode()` is UTF-8). -/
def utf8Char (n : Nat) : List Nat :=
  if n < 0x80 then [n]
  else if n < 0x800 then [0xC0 + n / 64, 0x80 + n % 64]
  else if n < 0x10000 then [0xE0 + n / 4096, 0x80 + (n / 64) % 64, 0x80 + n % 64]
  else [0xF0 + n / 0x40000, 0x80 + (n / 4096) % 64, 0x80 + (n / 64) % 64, 0x80 + n % 64]

/-- UTF-8 bytes of a string. -/
def utf8Bytes (s : String) : List Nat :=
  s.toList.flatMap fun c => utf8Char c.toNat

def mask32 : Nat := 0xFFFFFFFF

/-- 32-bit left rotation. -/
def rotl32 (x n : Nat) : Nat :=
  ((x <<< n) ||| (x >>> (32 - n))) % 4294967296

/-- `k` little-endian bytes of `x`. -/
def toLEBytes (x : Nat) : Nat → List Nat
  | 0 => []
  | k + 1 => (x % 256) :: toLEBytes (x / 256) k

/-- The MD5 sine-derived constant table `K`. -/
def md5K : List Nat :=
  [0xd76aa478, 0xe8c7b756, 0x242070db, 0xc1bdceee,
   0xf57c0faf, 0x4787c62a, 0xa8304613, 0xfd469501,
   0x698098d8, 0x8b44f7af, 0xffff5bb1, 0x895cd7be,
   0x6b901122, 0xfd987193, 0xa679438e, 0x49b40821,
   0xf61e2562, 0xc040b340, 0x265e5a51, 0xe9b6c7aa,
   0xd62f105d, 0x02441453, 0xd8a1e681, 0xe7d3fbc8,
   0x21e1cde6, 0xc33707d6, 0xf4d50d87, 0x455a14ed,
   0xa9e3e905, 0xfcefa3f8, 0x676f02d9, 0x8d2a4c8a,
   0xfffa3942, 0x8771f681, 0x6d9d6122, 0xfde5380c,
   0xa4beea44, 0x4bdecfa9, 0xf6bb4b60, 0xbebfbc70,
   0x289b7ec6, 0xeaa127fa, 0xd4ef3085, 0x04881d05,
   0xd9d4d039, 0xe6db99e5, 0x1fa27cf8, 0xc4ac5665,
   0xf4292244, 0x432aff97, 0xab9423a7, 0xfc93a039,
   0x655b59c3, 0x8f0ccc92, 0xffeff47d, 0x85845dd1,
   0x6fa87e4f, 0xfe2ce6e0, 0xa3014314, 0x4e0811a1,
   0xf7537e82, 0xbd3af235, 0x2ad7d2bb, 0xeb86d391]

/-- The MD5 per-round shift table `s`. -/
def md5S : List Nat :=
  [7, 12, 17, 22, 7, 12, 17, 22, 7, 12, 17, 22, 7, 12, 17, 22,
   5, 9, 14, 20, 5, 9, 14, 20, 5, 9, 14, 20, 5, 9, 14, 20,
   4, 11, 16, 23, 4, 11, 16, 23, 4, 11, 16, 23, 4, 11, 16, 23,
   6, 10, 15, 21, 6, 10, 15, 21, 6, 10, 15, 21, 6, 10, 15, 21]

/-- MD5 round mixing function for round `i`. -/
def md5F (b c d i : Nat) : Nat :=
  if i < 16 then (b &&& c) ||| ((b ^^^ mask32) &&& d)
  else if i < 32 then (d &&& b) ||| ((d ^^^ mask32) &&& c)
  else if i < 48 then b ^^^ c ^^^ d
  else c ^^^ (b ||| (d ^^^ mask32))

/-- Message-word index for round `i`. -/
def md5G (i : Nat) : Nat :=
  if i < 16 then i
  else if i < 32 then (5 * i + 1) % 16
  else if i < 48 then (3 * i + 5) % 16
  else (7 * i) % 16

/-- One MD5 round on state `(A, B, C, D)` with message words `M`. -/
def md5Round (M : List Nat) (st : Nat × Nat × Nat × Nat) (i : Nat) :
    Nat × Nat × Nat × Nat :=
  let (a, b, c, d) := st
  let f := (md5F b c d i + a + md5K.getD i 0 + M.getD (md5G i) 0) % 4294967296
  (d, (b + rotl32 f (md5S.getD i 0)) % 4294967296, b, c)

/-- 16 little-endian 32-bit words from 64 bytes. -/
def bytesToWords : List Nat → List Nat
  | b0 :: b1 :: b2 :: b3 :: rest =>
      (b0 + 256 * (b1 + 256 * (b2 + 256 * b3))) :: bytesToWords rest
  | _ => []

/-- One 512-bit chunk absorbed into the running state. -/
def md5Chunk (st : Nat × Nat × Nat × Nat) (chunk : List Nat) :
    Nat × Nat × Nat × Nat :=
  let M := bytesToWords chunk
  let (a, b, c, d) := (List.range 64).foldl (md5Round M) st
  let (a0, b0, c0, d0) := st
  ((a0 + a) % 4294967296, (b0 + b) % 4294967296,
   (c0 + c) % 4294967296, (d0 + d) % 4294967296)

/-- Split into 64-byte chunks (fuel-indexed so that it reduces in the
kernel; the fuel `l.length` always suffices). -/
def chunks64Fuel : Nat → List Nat → List (List Nat)
  | 0, _ => []
  | _, [] => []
  | f + 1, l => l.take 64 :: chunks64Fuel f (l.drop 64)

def chunks64 (l : List Nat) : List (List Nat) :=
  chunks64Fuel l.length l

/-- MD5 padding: `0x80`, zeros to 56 mod 64, then the 64-bit LE bit length. -/
def md5Pad (msg : List Nat) : List Nat :=
  let n := msg.length
  let zeros := (119 - n % 64) % 64
  msg ++ [0x80] ++ List.replicate zeros 0 ++ toLEBytes ((n * 8) % 2 ^ 64) 8

/-- MD5 digest (16 bytes) of a byte sequence. -/
def md5Bytes (msg : List Nat) : List Nat :=
  let st := (chunks64 (md5Pad msg)).foldl md5Chunk
    (0x67452301, 0xefcdab89, 0x98badcfe, 0x10325476)
  toLEBytes st.1 4 ++ toLEBytes st.2.1 4 ++ toLEBytes st.2.2.1 4 ++
    toLEBytes st.2.2.2 4

/-- The sixteen lowercase hex digits, `0` through `f`. -/
def hexChars : List Char :=
  (List.range 16).map Nat.digitChar

def hexDigit (n : Nat) : Char :=
  hexChars.getD n '0'

/-- Lowercase hex rendering of a byte list. -/
def hexOfBytes : List Nat → List Char
  | [] => []
  | b :: rest => hexDigit (b / 16) :: hexDigit (b % 16) :: hexOfBytes rest

/-- `hashlib.md5(s.encode()).hexdigest()` as a char list. -/
def md5hexList (s : String) : List Char :=
  hexOfBytes (md5Bytes (utf8Bytes s))

/-- `hashlib.md5(s.encode()).hexdigest()`. -/
def md5hex (s : String) : String :=
  String.mk (md5hexList s)

/-! ## `clean_filename` (scraper.py lines 31–40) -/

/-- The character class removed by `re.sub(r'[\\/*?:"<>|]', "", text)`. -/
def isIllegalChar (c : Char) : Bool :=
  c = '\\' || c = '/' || c = '*' || c = '?' || c = ':' || c = '"' ||
  c = '<' || c = '>' || c = '|'

/-- `re.sub(r'[\\/*?:"<>|]', "", text).strip().replace(" ", "_")` as a char
list. -/
def cleanBase (text : String) : List Char :=
  (pyStripList (text.toList.filter fun c => !isIllegalChar c)).map
    fun c => if c = ' ' then '_' else c

/-- `clean_filename(text, max_length=80)`: sanitize `text` for use as a
filename; when the cleaned text is longer than `max_length` it becomes
`clean[:max_length-9] + "_" + md5(text).hexdigest()[:8]`. -/
def clean_filename (text : String) (max_length : Nat := 80) : String :=
  let clean := cleanBase text
  if clean.length > max_length then
    String.mk (pySliceTo clean ((max_length : Int) - 9) ++
      '_' :: (md5hexList text).take 8)
  else
    String.mk clean

/-! ## Filesystem model and `validate_html_file` (scraper.py lines 42–59)

`os.path.exists`, `os.path.getsize`, `open().read` and `os.listdir` are the
only filesystem observations the resume logic makes; they are modelled as an
explicit record.  `getSize`/`readText` return `none` where the Python call
would raise (caught by the bare `except`). -/

structure FS where
  pathExists : String → Bool
  getSize : String → Option Nat
  readText : String → Option String
  listDirLen : String → Nat

/-- `validate_html_file(filepath)`: the file exists, its size is not
suspiciously small, and its first 500 characters contain a case-insensitive
HTML document marker; any OS error yields `False`. -/
def validate_html_file (fs : FS) (filepath : String) : Bool :=
  if !fs.pathExists filepath then false
  else
    match fs.getSize filepath with
    | none => false
    | some size =>
      if size < 1000 then false
      else
        match fs.readText filepath with
        | none => false
        | some text =>
          let content := (text.toList.take 500).map Char.toLower
          containsSub "<!doctype html>".toList content ||
            containsSub "<html".toList content

/-! ## Selection filter (scraper.py lines 404–419) -/

inductive SelResult where
  | error
  | ok (types : List String)
  deriving DecidableEq, Repr

/-- `input(...).strip().lower()` applied to the operator's reply. -/
def normInput (rawInput : String) : String :=
  String.mk ((pyStripList rawInput.toList).map Char.toLower)

/-- Python `s.split(sep)` with a one-character separator: split at every
occurrence, keeping empty pieces. -/
def pySplit (sep : Char) : List Char → List (List Char)
  | [] => [[]]
  | c :: t =>
    if c = sep then [] :: pySplit sep t
    else
      match pySplit sep t with
      | [] => [[c]]
      | x :: xs => (c :: x) :: xs

/-- `user_input.split(',')` as strings. -/
def splitCommas (s : String) : List String :=
  (pySplit ',' s.toList).map String.mk

/-- `[int(x.strip()) for x in tokens]`: all tokens parse or the whole
comprehension raises `ValueError` (modelled as `none`). -/
def parseTokens : List String → Option (List Int)
  | [] => some []
  | t :: ts =>
    match pyInt t, parseTokens ts with
    | some v, some vs => some (v :: vs)
    | _, _ => none

/-- The operator-selection step: the raw prompt reply is stripped and
lowercased; `"all"` selects the whole sorted type list; otherwise the reply
is split on commas, every token parsed with `int()` (any failure aborts),
in-range 1-based indices select entries of `type_list`, and an empty
resulting set aborts. -/
def parse_selection (rawInput : String) (type_list : List String) : SelResult :=
  let u := normInput rawInput
  let sel : Option (List String) :=
    if u = "all" then some type_list
    else
      match parseTokens (splitCommas u) with
      | none => none
      | some indices =>
        some (((indices.filter fun i => 1 ≤ i ∧ i ≤ (type_list.length : Int)).map
          fun i => type_list.getD (i - 1).toNat "").dedup)
  match sel with
  | none => .error
  | some l => if l.isEmpty then .error else .ok l

/-! ## Module discovery (scraper.py lines 320–399)

A listing row either carries the week-section header cell
(`th[data-testid="assessment-group-heading"]`) or is a content row whose
badge text, link `href`/text and group icon (`i.fa-users` inside the link)
are what the scan inspects; those pre-parsed observations form `Row`. -/

structure LinkInfo where
  href : String
  text : String
  hasUsersIcon : Bool
  deriving DecidableEq, Repr

inductive Row where
  | header (text : String)
  | item (badge : Option String) (link : Option LinkInfo)
  deriving DecidableEq, Repr

/-- `re.search(r'Week\s+(\d+)', title, re.IGNORECASE)` followed by
`int(group(1))`: leftmost occurrence of `week` (case-insensitive), one or
more whitespace characters, then a maximal digit run. -/
def matchWeekAt : List Char → Option Nat
  | a :: b :: c :: d :: rest =>
    if a.toLower = 'w' ∧ b.toLower = 'e' ∧ c.toLower = 'e' ∧ d.toLower = 'k' then
      let ws := rest.takeWhile isPyWhitespace
      if ws.isEmpty then none
      else
        let ds := (rest.drop ws.length).takeWhile Char.isDigit
        if ds.isEmpty then none else some (natOfDigits ds)
    else none
  | _ => none

def findWeekNum : List Char → Option Nat
  | [] => none
  | c :: t =>
    match matchWeekAt (c :: t) with
    | some n => some n
    | none => findWeekNum t

/-- `re.match(r'^([A-Z]+)', badge_text)`: the non-empty leading run of
ASCII uppercase letters. -/
def upperPrefix (s : String) : Option String :=
  let run := s.toList.takeWhile fun c => 'A' ≤ c ∧ c ≤ 'Z'
  if run.isEmpty then none else some (String.mk run)

structure TypeAgg where
  count : Nat
  is_group : Bool
  sample_title : String
  deriving DecidableEq, Repr

structure Assessment where
  week : String
  name : String
  title : String
  url : String
  mtype : String
  is_group : Bool
  deriving DecidableEq, Repr

/-- The `module_types` dict: an insertion-ordered association list. -/
def lookupA : List (String × TypeAgg) → String → Option TypeAgg
  | [], _ => none
  | p :: t, k => if p.1 = k then some p.2 else lookupA t k

/-- `module_types[k]['count'] += 1`. -/
def bumpCount (m : List (String × TypeAgg)) (k : String) :
    List (String × TypeAgg) :=
  m.map fun p => if p.1 = k then (p.1, { p.2 with count := p.2.count + 1 }) else p

structure DState where
  moduleTypes : List (String × TypeAgg)
  tempAssessments : List Assessment
  currentWeek : Option Nat
  deriving Repr

def prairielearnBase : String := "https://us.prairielearn.com"

/-- `href if href.startswith("http") else base + href`. -/
def fullUrl (href : String) : String :=
  if "http".toList.isPrefixOf href.toList then href
  else prairielearnBase ++ href

/-- One iteration of the Phase-1 discovery loop over `all_rows`. -/
def processRow (s : DState) (r : Row) : DState :=
  match r with
  | .header t =>
    match findWeekNum t.toList with
    | some n =>
      if 1 ≤ n ∧ n ≤ 14 then { s with currentWeek := some n }
      else { s with currentWeek := none }
    | none => s
  | .item badge link =>
    match s.currentWeek with
    | none => s
    | some w =>
      match badge, link with
      | some badge_text, some l =>
        if l.href ≠ "" then
          if strContains l.href "/assessment/" ||
              strContains l.href "/assessment_instance/" then
            match upperPrefix badge_text with
            | some module_type =>
              let m :=
                if lookupA s.moduleTypes module_type = none then
                  s.moduleTypes ++
                    [(module_type, ⟨0, l.hasUsersIcon, l.text⟩)]
                else s.moduleTypes
              { s with
                moduleTypes := bumpCount m module_type,
                tempAssessments := s.tempAssessments ++
                  [{ week := clean_filename ("Week_" ++ toString w),
                     name := clean_filename badge_text,
                     title := l.text,
                     url := fullUrl l.href,
                     mtype := module_type,
                     is_group := l.hasUsersIcon }] }
            | none => s
          else s
        else s
      | _, _ => s

/-- Phase 1 over the whole listing. -/
def discover (rows : List Row) : DState :=
  rows.foldl processRow ⟨[], [], none⟩

/-- `{k: v for k, v in module_types.items() if not v['is_group']}`. -/
def availableTypes (m : List (String × TypeAgg)) : List (String × TypeAgg) :=
  m.filter fun p => !p.2.is_group

/-- `sorted(available_types.keys())`. -/
def typeList (m : List (String × TypeAgg)) : List String :=
  ((availableTypes m).map Prod.fst).mergeSort (· ≤ ·)

/-- `[a for a in temp_assessments if a['type'] in selected_types and not
a['is_group']]`. -/
def assessmentsToProcess (selected : List String) (st : DState) :
    List Assessment :=
  st.tempAssessments.filter fun a => selected.contains a.mtype && !a.is_group

/-! ## Per-question resume and error containment (scraper.py lines 472–521)

The side-effecting part of one question's processing — `driver.get`,
`expand_answer_panel`, `download_images`, the HTML write and the screenshot
— is abstracted as `body`, which may raise (`Except.error`).  Everything the
skip decision reads is in `FS`. -/

structure QuestionRec where
  category : String
  title : String
  url : String
  deriving DecidableEq, Repr

/-- What one loop iteration did. -/
inductive StepAction where
  | skippedCompleted
  | skippedExisting
  | fetched (ok : Bool)
  deriving DecidableEq, Repr

/-- `question_folder = os.path.join(output_dir, week, name, category, title)`. -/
def questionFolder (output_dir week name : String) (q : QuestionRec) : String :=
  output_dir ++ "/" ++ week ++ "/" ++ name ++ "/" ++ q.category ++ "/" ++ q.title

/-- One iteration of the per-question loop: the completed-set check, the
resume check against the filesystem, and otherwise the fetch body (whose
exceptions are caught, leaving the completed set unchanged). -/
def processQuestion (body : QuestionRec → Except String Unit)
    (output_dir week assessName : String) (fs : FS)
    (completed : List String) (q : QuestionRec) :
    List String × StepAction :=
  let question_id := assessName ++ "_" ++ q.title
  if completed.contains question_id then
    (completed, .skippedCompleted)
  else
    let folder := questionFolder output_dir week assessName q
    let save_path := folder ++ "/index.html"
    let screenshot_path := folder ++ "/render.png"
    let images_folder := folder ++ "/images"
    let needs_images :=
      !fs.pathExists images_folder || fs.listDirLen images_folder == 0
    let needs_screenshot := !fs.pathExists screenshot_path
    if validate_html_file fs save_path && !needs_images && !needs_screenshot then
      (completed ++ [question_id], .skippedExisting)
    else
      match body q with
      | .ok _ => (completed ++ [question_id], .fetched true)
      | .error _ => (completed, .fetched false)

/-- The whole per-assessment question loop, returning the final completed
set and one action per question. -/
def processQuestions (body : QuestionRec → Except String Unit)
    (output_dir week assessName : String) (fs : FS)
    (completed : List String) : List QuestionRec → List String × List StepAction
  | [] => (completed, [])
  | q :: qs =>
    let (c', act) := processQuestion body output_dir week assessName fs completed q
    let (c'', acts) := processQuestions body output_dir week assessName fs c' qs
    (c'', act :: acts)

/-! ## `download_with_retry` (scraper.py lines 65–82)

`requests.get` is modelled as an oracle from the attempt index to its
outcome; the returned event trace records attempts, backoff sleeps and the
session-expired log line. -/

def MAX_RETRIES : Nat := 3

inductive FetchResult where
  | status (code : Nat) (body : String)
  | timeout
  | exn
  deriving DecidableEq, Repr

inductive Ev where
  | attempt (i : Nat)
  | slept (secs : Nat)
  | authLogged
  deriving DecidableEq, Repr

/-- The retry loop from attempt index `i`, with `r` loop iterations left.
A 200 returns the body, a 401 logs and returns `None`, any other status
falls through to the next attempt without sleeping, and a raised timeout or
generic exception sleeps `2 ** attempt` before the next attempt. -/
def dwrFrom (oracle : Nat → FetchResult) : Nat → Nat → Option String × List Ev
  | _, 0 => (none, [])
  | i, r + 1 =>
    match oracle i with
    | .status code body =>
      if code = 200 then (some body, [.attempt i])
      else if code = 401 then (none, [.attempt i, .authLogged])
      else
        let p := dwrFrom oracle (i + 1) r
        (p.1, .attempt i :: p.2)
    | .timeout =>
      let p := dwrFrom oracle (i + 1) r
      (p.1, .attempt i :: .slept (2 ^ i) :: p.2)
    | .exn =>
      let p := dwrFrom oracle (i + 1) r
      (p.1, .attempt i :: .slept (2 ^ i) :: p.2)

/-- `download_with_retry(url, cookies, max_retries=MAX_RETRIES)`. -/
def download_with_retry (oracle : Nat → FetchResult)
    (max_retries : Nat := MAX_RETRIES) : Option String × List Ev :=
  dwrFrom oracle 0 max_retries

def countAttempts : List Ev → Nat
  | [] => 0
  | .attempt _ :: t => countAttempts t + 1
  | .slept _ :: t => countAttempts t
  | .authLogged :: t => countAttempts t

/-- An attempt outcome after which the `for` loop keeps going: any status
other than 200/401, a timeout, or a generic exception. -/
def nonTerm : FetchResult → Prop
  | .status code _ => code ≠ 200 ∧ code ≠ 401
  | .timeout => True
  | .exn => True

instance : DecidablePred nonTerm := fun fr => by
  cases fr <;> simp only [nonTerm] <;> infer_instance

/-- An attempt that raised (timeout or generic exception). -/
def raisedErr : FetchResult → Prop
  | .status _ _ => False
  | .timeout => True
  | .exn => True

instance : DecidablePred raisedErr := fun fr => by
  cases fr <;> simp only [raisedErr] <;> infer_instance

/-! ## Path rewriter (utilities/fix_html_paths.py lines 9–40, and the
identical `fix_css_paths` regexes in scraper.py lines 241–252)

`re.sub(r'(src|href)="(/assets/[^"]+)"', r'\1="' + BASE + r'\2"', content)`
is embedded as a left-to-right scan.  At each position the alternation
tries `src` then `href` (their first characters differ, so no backtracking
between them), then the literal `="`, the literal path prefix, a maximal
non-empty run of non-quote characters, and the closing quote; a match is
replaced and scanning resumes after it.  The scan is fuel-indexed (so that
it reduces in the kernel); fuel `cs.length` always suffices because every
step consumes at least one character. -/

def baseChars : List Char := "https://us.prairielearn.com".toList

/-- After the matched key and the literal `="`: the path prefix, a maximal
non-empty run of non-quote characters (`[^"]+` is greedy and backtracking
cannot help, since every character of the run is a non-quote), and the
closing quote.  On success, the replacement text and the remainder. -/
def tryRest (pat key r2 : List Char) : Option (List Char × List Char) :=
  if pat.isPrefixOf r2 then
    let r3 := r2.drop pat.length
    let inner := r3.takeWhile (· ≠ '"')
    match r3.drop inner.length with
    | '"' :: rest =>
      if inner.isEmpty then none
      else some (key ++ '=' :: '"' :: (baseChars ++ pat ++ inner ++ ['"']), rest)
    | _ => none
  else none

/-- Try the whole pattern `(src|href)="<pat>[^"]+"` at the current
position (the two alternation branches start with different characters, so
at any position at most one of them can match). -/
def tryMatch (pat : List Char) (cs : List Char) :
    Option (List Char × List Char) :=
  match cs with
  | 's' :: 'r' :: 'c' :: '=' :: '"' :: r2 => tryRest pat ['s', 'r', 'c'] r2
  | 'h' :: 'r' :: 'e' :: 'f' :: '=' :: '"' :: r2 => tryRest pat ['h', 'r', 'e', 'f'] r2
  | _ => none

def substFuel (pat : List Char) : Nat → List Char → List Char
  | 0, cs => cs
  | _ + 1, [] => []
  | f + 1, c :: t =>
    match tryMatch pat (c :: t) with
    | some (rep, rest) => rep ++ substFuel pat f rest
    | none => c :: substFuel pat f t

/-- One `re.sub` pass for the given path prefix. -/
def subst (pat : List Char) (cs : List Char) : List Char :=
  substFuel pat cs.length cs

/-- The transformation `fix_html_file` applies to a file's content: the
`/assets/` pass followed by the `/pl/` pass. -/
def fixContent (s : String) : String :=
  String.mk (subst "/pl/".toList (subst "/assets/".toList s.toList))

/-! # Theorems -/

/-! ## C3 — `validate_html_file` characterization -/

/-- The case-insensitive HTML document marker test on the first 500
characters of `text`. -/
def hasHtmlMarker (text : String) : Bool :=
  containsSub "<!doctype html>".toList ((text.toList.take 500).map Char.toLower) ||
    containsSub "<html".toList ((text.toList.take 500).map Char.toLower)

theorem validate_eq_iff (fs : FS) (p : String) :
    validate_html_file fs p = true ↔
      fs.pathExists p = true ∧
      (∃ size, fs.getSize p = some size ∧ 1000 ≤ size) ∧
      (∃ text, fs.readText p = some text ∧ hasHtmlMarker text = true) := by
  unfold validate_html_file hasHtmlMarker
  rcases hpe : fs.pathExists p with _ | _
  · simp [hpe]
  · rcases hgs : fs.getSize p with _ | size
    · simp [hgs]
    · rcases hrt : fs.readText p with _ | text
      · simp [hgs, hrt]
      · by_cases hsz : size < 1000
        · simp [hgs, hrt, hsz]
        · simp [hgs, hrt, hsz]
          omega

/-- C3: the claim states `validate_html_file` returns true iff the file
exists, its size **exceeds** 1000 bytes, and the leading content bears an
HTML marker.  The code accepts a file of exactly 1000 bytes (`size < 1000`
is the rejection test), so the claimed iff fails at size 1000. -/
def c3fs : FS :=
  { pathExists := fun p => p = "q/index.html"
    getSize := fun p => if p = "q/index.html" then some 1000 else none
    readText := fun p => if p = "q/index.html" then some "<html><body>x</body></html>" else none
    listDirLen := fun _ => 0 }

/-- C3 counterexample: a 1000-byte file with an HTML marker is accepted by
the code although its size does not exceed 1000 bytes, refuting the claimed
equivalence. -/
theorem c3_counterexample :
    validate_html_file c3fs "q/index.html" = true ∧ ¬ (1000 : Nat) > 1000 := by
  constructor
  · decide
  · omega

/-- C3 (amended): `validate_html_file` returns true iff the file exists,
its size is **at least** 1000 bytes, and its leading 500 characters contain
a case-insensitive HTML document marker; in every other case, including any
read error, it returns false. -/
theorem c3_theorem (fs : FS) (p : String) :
    validate_html_file fs p = true ↔
      fs.pathExists p = true ∧
      (∃ size, fs.getSize p = some size ∧ 1000 ≤ size) ∧
      (∃ text, fs.readText p = some text ∧ hasHtmlMarker text = true) :=
  validate_eq_iff fs p

/-! ## C4 — `clean_filename` -/

/-- A character acceptable in the sanitizer's output: not one of the
stripped path-illegal characters and not a space. -/
def goodChar (c : Char) : Bool :=
  !isIllegalChar c && !(c = ' ')

theorem mem_pyStripList {c : Char} {l : List Char} (h : c ∈ pyStripList l) :
    c ∈ l := by
  unfold pyStripList at h
  rw [List.mem_reverse] at h
  have h2 := (List.dropWhile_sublist isPyWhitespace).subset h
  rw [List.mem_reverse] at h2
  exact (List.dropWhile_sublist isPyWhitespace).subset h2

theorem cleanBase_good (t : String) : ∀ c ∈ cleanBase t, goodChar c = true := by
  intro c hc
  unfold cleanBase at hc
  rcases List.mem_map.1 hc with ⟨b, hb, hbc⟩
  by_cases hsp : b = ' '
  · simp only [hsp, if_pos rfl] at hbc
    subst hbc
    decide
  · simp only [if_neg hsp] at hbc
    subst hbc
    have hbm := mem_pyStripList hb
    have := (List.mem_filter.1 hbm).2
    unfold goodChar
    simp_all

theorem hexDigit_mem (n : Nat) : hexDigit n ∈ hexChars := by
  unfold hexDigit
  by_cases h : n < hexChars.length
  · have h16 : n < 16 := by simpa [hexChars] using h
    interval_cases n <;> decide
  · rw [List.getD_eq_default _ _ (Nat.le_of_not_lt h)]
    decide

theorem mem_hexOfBytes {c : Char} : ∀ {bs : List Nat},
    c ∈ hexOfBytes bs → c ∈ hexChars
  | [], h => by simp [hexOfBytes] at h
  | b :: rest, h => by
    simp only [hexOfBytes, List.mem_cons] at h
    rcases h with h | h | h
    · exact h ▸ hexDigit_mem _
    · exact h ▸ hexDigit_mem _
    · exact mem_hexOfBytes h

theorem hexChars_good : ∀ c ∈ hexChars, goodChar c = true := by decide

theorem mem_pySliceTo {c : Char} {l : List Char} {k : Int}
    (h : c ∈ pySliceTo l k) : c ∈ l := by
  unfold pySliceTo at h
  split at h <;> exact List.mem_of_mem_take h

theorem toLEBytes_length (x : Nat) : ∀ k, (toLEBytes x k).length = k := by
  intro k
  induction k generalizing x with
  | zero => rfl
  | succ k ih => simp [toLEBytes, ih]

theorem md5Bytes_length (msg : List Nat) : (md5Bytes msg).length = 16 := by
  simp [md5Bytes, toLEBytes_length]

theorem hexOfBytes_length : ∀ bs : List Nat,
    (hexOfBytes bs).length = 2 * bs.length
  | [] => rfl
  | b :: rest => by
    simp [hexOfBytes, hexOfBytes_length rest]
    ring

theorem md5hexList_length (s : String) : (md5hexList s).length = 32 := by
  simp [md5hexList, hexOfBytes_length, md5Bytes_length]

/-- C4 counterexample: the claim quantifies over **every** maximum length,
but `clean_filename("aaaaaa", 5)` has length 11 > 5: Python's
`clean[:5-9]` is `clean[:-4]`, which keeps rather than truncates, and the
9-character hash suffix is still appended. -/
theorem c4_counterexample :
    (clean_filename "aaaaaa" 5).length = 11 ∧
      ¬ (clean_filename "aaaaaa" 5).length ≤ 5 := by
  constructor
  · decide
  · decide

/-- C4 (amended): the sanitizer's output never contains a path-illegal
character or a space; for every maximum length of **at least 9** and every
input whose cleaned form exceeds it, the output has length exactly the
maximum and ends with the 8-character MD5 prefix of the original text; and
the function is deterministic. -/
theorem c4_theorem (text : String) (max_length : Nat) :
    (∀ c ∈ (clean_filename text max_length).toList, goodChar c = true) ∧
    (9 ≤ max_length → (cleanBase text).length > max_length →
      (clean_filename text max_length).length = max_length ∧
      ((md5hexList text).take 8).length = 8 ∧
      (md5hexList text).take 8 <:+ (clean_filename text max_length).toList) ∧
    clean_filename text max_length = clean_filename text max_length := by
  refine ⟨?_, ?_, rfl⟩
  · intro c hc
    simp only [clean_filename] at hc
    split at hc
    · change c ∈ pySliceTo (cleanBase text) _ ++ '_' :: (md5hexList text).take 8 at hc
      rcases List.mem_append.1 hc with h | h
      · exact cleanBase_good text c (mem_pySliceTo h)
      · rcases List.mem_cons.1 h with h | h
        · subst h; decide
        · exact hexChars_good c (mem_hexOfBytes (List.mem_of_mem_take h))
    · exact cleanBase_good text c hc
  · intro h9 hlong
    have hslice : pySliceTo (cleanBase text) ((max_length : Int) - 9) =
        (cleanBase text).take (max_length - 9) := by
      unfold pySliceTo
      rw [if_pos (by omega)]
      congr 1
      omega
    have hcf : clean_filename text max_length =
        String.mk ((cleanBase text).take (max_length - 9) ++
          '_' :: (md5hexList text).take 8) := by
      unfold clean_filename
      rw [if_pos hlong, hslice]
    have hlen8 : ((md5hexList text).take 8).length = 8 := by
      rw [List.length_take, md5hexList_length]
      omega
    refine ⟨?_, hlen8, ?_⟩
    · rw [hcf]
      show ((cleanBase text).take (max_length - 9) ++
        '_' :: (md5hexList text).take 8).length = max_length
      rw [List.length_append, List.length_take, List.length_cons, hlen8]
      omega
    · rw [hcf]
      show (md5hexList text).take 8 <:+
        (cleanBase text).take (max_length - 9) ++ '_' :: (md5hexList text).take 8
      exact ⟨(cleanBase text).take (max_length - 9) ++ ['_'], by simp⟩

/-- C4 witness: a 30-character input truncated to maximum length 20. -/
def c4text : String := "aaaaaaaaaaaaaaaaaaaaaaaaaaaaaa"

theorem c4_witness :
    9 ≤ 20 ∧ (cleanBase c4text).length > 20 ∧
    (clean_filename c4text 20).length = 20 ∧
    (md5hexList c4text).take 8 <:+ (clean_filename c4text 20).toList :=
  ⟨by decide, by decide,
   ((c4_theorem c4text 20).2.1 (by decide) (by decide)).1,
   ((c4_theorem c4text 20).2.1 (by decide) (by decide)).2.2⟩

/-! ## C1 — selection-filter contract -/

theorem parseTokens_eq_none {l : List String}
    (h : ∃ tok ∈ l, pyInt tok = none) : parseTokens l = none := by
  induction l with
  | nil => simp at h
  | cons x xs ih =>
    rcases h with ⟨tok, hmem, hnone⟩
    rcases List.mem_cons.1 hmem with h | h
    · subst h
      simp [parseTokens, hnone]
    · have hxs := ih ⟨tok, h, hnone⟩
      rcases hx : pyInt x with _ | v <;> simp [parseTokens, hx, hxs]

/-- C1 counterexample: the selection expression `"1,99"` against a 2-entry
type list contains the out-of-range index 99, yet it is not rejected: the
99 is silently dropped and the partial selection `["A"]` is applied. -/
theorem c1_counterexample :
    parse_selection "1,99" ["A", "B"] = .ok ["A"] := by decide

/-- C1 (amended): the selection step resolves to a non-empty set or
reports an error: an expression with any unparsable token is rejected, and
an expression whose parsed indices leave nothing in range (such as the
standalone out-of-range `"99"`) is rejected — but an out-of-range index
listed alongside in-range ones is silently dropped, so a partial selection
can be applied. -/
theorem c1_theorem :
    (∀ input tl r, parse_selection input tl = .ok r → r ≠ []) ∧
    (∀ input tl, normInput input ≠ "all" →
      (∃ tok ∈ splitCommas (normInput input), pyInt tok = none) →
      parse_selection input tl = .error) ∧
    (∀ input tl indices, normInput input ≠ "all" →
      parseTokens (splitCommas (normInput input)) = some indices →
      (indices.filter fun i => 1 ≤ i ∧ i ≤ (tl.length : Int)) = [] →
      parse_selection input tl = .error) := by
  refine ⟨?_, ?_, ?_⟩
  · intro input tl r h
    simp only [parse_selection] at h
    split at h
    · simp at h
    · split at h
      · simp at h
      · rename_i hne
        rw [SelResult.ok.injEq] at h
        subst h
        simpa using hne
  · intro input tl hall hbad
    simp only [parse_selection, if_neg hall, parseTokens_eq_none hbad]
  · intro input tl indices hall hmap hfilter
    simp only [parse_selection, if_neg hall, hmap, hfilter, List.map_nil,
      List.dedup_nil, List.isEmpty_nil, if_true]

/-- C1 witness: the unparsable `"abc"` and the standalone out-of-range
`"99"` are both rejected against the type list `["HW", "LAB"]`. -/
theorem c1_witness :
    normInput "abc" ≠ "all" ∧ pyInt "abc" = none ∧
    parse_selection "abc" ["HW", "LAB"] = .error ∧
    parse_selection "99" ["HW", "LAB"] = .error :=
  ⟨by decide, by decide,
   c1_theorem.2.1 "abc" ["HW", "LAB"] (by decide) ⟨"abc", by decide, by decide⟩,
   c1_theorem.2.2 "99" ["HW", "LAB"] [99] (by decide) (by decide) (by decide)⟩

/-! ## C5 — week-cursor reset on out-of-range headers -/

/-- A row that (re)activates collection: a header row whose leftmost week
match lies in the accepted range `[1, 14]`. -/
def isValidHeader : Row → Bool
  | .header t =>
    match findWeekNum t.toList with
    | some n => 1 ≤ n ∧ n ≤ 14
    | none => false
  | .item _ _ => false

theorem processRow_suppressed {mt : List (String × TypeAgg)}
    {ta : List Assessment} {r : Row} (hr : isValidHeader r = false) :
    processRow ⟨mt, ta, none⟩ r = ⟨mt, ta, none⟩ := by
  cases r with
  | header t =>
    simp only [isValidHeader] at hr
    simp only [processRow]
    rcases hw : findWeekNum t.toList with _ | n
    · simp only [hw]
    · rw [hw] at hr
      simp only [hw]
      rw [if_neg (by simpa using hr)]
  | item badge link => rfl

theorem foldl_suppressed {rows : List Row} :
    ∀ {mt : List (String × TypeAgg)} {ta : List Assessment},
      (∀ r ∈ rows, isValidHeader r = false) →
      rows.foldl processRow ⟨mt, ta, none⟩ = ⟨mt, ta, none⟩ := by
  induction rows with
  | nil => intro mt ta _; rfl
  | cons r rs ih =>
    intro mt ta hall
    rw [List.foldl_cons, processRow_suppressed (hall r (List.mem_cons_self r rs)),
      ih fun r' hr' => hall r' (List.mem_cons_of_mem r hr')]

/-- C5: a header whose week number falls outside `[1, 14]` resets the week
cursor to `None`, and with the cursor unset every subsequent row, up to the
next in-range header, leaves the per-type aggregates and the candidate
assessment list untouched. -/
theorem c5_theorem :
    (∀ (s : DState) (t : String) (n : Nat),
      findWeekNum t.toList = some n → ¬(1 ≤ n ∧ n ≤ 14) →
      processRow s (.header t) = { s with currentWeek := none }) ∧
    (∀ (rows : List Row) (s : DState), s.currentWeek = none →
      (∀ r ∈ rows, isValidHeader r = false) →
      (rows.foldl processRow s).moduleTypes = s.moduleTypes ∧
      (rows.foldl processRow s).tempAssessments = s.tempAssessments ∧
      (rows.foldl processRow s).currentWeek = none) := by
  constructor
  · intro s t n hw hn
    simp only [processRow, hw]
    rw [if_neg hn]
  · intro rows s hcur hall
    obtain ⟨mt, ta, cw⟩ := s
    simp only at hcur
    subst hcur
    rw [foldl_suppressed hall]
    exact ⟨rfl, rfl, rfl⟩

/-- C5 witness: a `Week 15` header suppresses the following content row. -/
def c5rows : List Row :=
  [Row.header "Week 15",
   Row.item (some "HW2") (some ⟨"/pl/course_instance/1/assessment/3", "Homework two", false⟩)]

theorem c5_witness :
    findWeekNum "Week 15".toList = some 15 ∧ ¬(1 ≤ 15 ∧ 15 ≤ 14) ∧
    processRow ⟨[], [], some 3⟩ (.header "Week 15") =
      { moduleTypes := [], tempAssessments := [], currentWeek := none } ∧
    (discover c5rows).tempAssessments = [] ∧
    (discover c5rows).moduleTypes = [] :=
  ⟨by decide, by decide,
   c5_theorem.1 ⟨[], [], some 3⟩ "Week 15" 15 (by decide) (by decide),
   (c5_theorem.2 c5rows ⟨[], [], none⟩ rfl (by decide)).2.1,
   (c5_theorem.2 c5rows ⟨[], [], none⟩ rfl (by decide)).1⟩

/-! ## C6 — group-marker rows are flagged and excluded -/

/-- C6: a qualifying row whose link carries the `fa-users` icon is recorded
as a candidate with group-flag true; the crawl driver's work list contains
no group-flagged candidate; and the "available" per-type set shown to the
operator contains no aggregate whose group-flag is true. -/
theorem c6_theorem :
    (∀ (s : DState) (badge : Option String) (l : LinkInfo),
      l.hasUsersIcon = true →
      ∀ a ∈ (processRow s (.item badge (some l))).tempAssessments,
        a ∈ s.tempAssessments ∨ a.is_group = true) ∧
    (∀ (selected : List String) (st : DState),
      ∀ a ∈ assessmentsToProcess selected st, a.is_group = false) ∧
    (∀ (m : List (String × TypeAgg)),
      ∀ p ∈ availableTypes m, p.2.is_group = false) := by
  refine ⟨?_, ?_, ?_⟩
  · intro s badge l hicon a ha
    obtain ⟨mt, ta, cw⟩ := s
    cases cw with
    | none => exact .inl ha
    | some w =>
      cases badge with
      | none => exact .inl ha
      | some bt =>
        simp only [processRow] at ha
        split at ha
        · split at ha
          · split at ha
            · rcases List.mem_append.1 ha with h | h
              · exact .inl h
              · rw [List.mem_singleton] at h
                subst h
                exact .inr hicon
            · exact .inl ha
          · exact .inl ha
        · exact .inl ha
  · intro selected st a ha
    have h := (List.mem_filter.1 ha).2
    simp only [Bool.and_eq_true, Bool.not_eq_true'] at h
    exact h.2
  · intro m p hp
    have h := (List.mem_filter.1 hp).2
    simpa using h

def c6rows : List Row :=
  [Row.header "Week 2",
   Row.item (some "HW1") (some ⟨"/pl/course_instance/1/assessment/7", "Homework", false⟩),
   Row.item (some "GL1") (some ⟨"/pl/course_instance/1/assessment/9", "Group lab", true⟩)]

def c6grpRec : Assessment :=
  { week := "Week_2", name := "GL1", title := "Group lab",
    url := "https://us.prairielearn.com/pl/course_instance/1/assessment/9",
    mtype := "GL", is_group := true }

def c6hwRec : Assessment :=
  { week := "Week_2", name := "HW1", title := "Homework",
    url := "https://us.prairielearn.com/pl/course_instance/1/assessment/7",
    mtype := "HW", is_group := false }

theorem c6_witness :
    (c6grpRec ∈ (processRow ⟨[], [], some 2⟩
        (.item (some "GL1")
          (some ⟨"/pl/course_instance/1/assessment/9", "Group lab", true⟩))).tempAssessments ∧
      (c6grpRec ∈ ([] : List Assessment) ∨ c6grpRec.is_group = true)) ∧
    (c6hwRec ∈ assessmentsToProcess ["HW", "GL"] (discover c6rows) ∧
      c6hwRec.is_group = false) ∧
    (("HW", TypeAgg.mk 1 false "Homework") ∈ availableTypes (discover c6rows).moduleTypes ∧
      (TypeAgg.mk 1 false "Homework").is_group = false) :=
  ⟨⟨by decide,
    c6_theorem.1 ⟨[], [], some 2⟩ (some "GL1")
      ⟨"/pl/course_instance/1/assessment/9", "Group lab", true⟩ rfl c6grpRec (by decide)⟩,
   ⟨by decide, c6_theorem.2.1 ["HW", "GL"] (discover c6rows) c6hwRec (by decide)⟩,
   ⟨by decide, c6_theorem.2.2 (discover c6rows).moduleTypes
      ("HW", TypeAgg.mk 1 false "Homework") (by decide)⟩⟩

/-! ## C10 — the aggregate keeps the first row's flag and sample title -/

theorem lookupA_append_single (m : List (String × TypeAgg)) (k k' : String)
    (v : TypeAgg) :
    lookupA (m ++ [(k', v)]) k =
      match lookupA m k with
      | some a => some a
      | none => if k' = k then some v else none := by
  induction m with
  | nil => simp [lookupA]
  | cons p t ih =>
    by_cases hp : p.1 = k
    · simp [lookupA, hp]
    · simp only [List.cons_append, lookupA, if_neg hp]
      exact ih

theorem lookupA_bumpCount (m : List (String × TypeAgg)) (k k' : String) :
    lookupA (bumpCount m k') k =
      match lookupA m k with
      | none => none
      | some a => some (if k = k' then { a with count := a.count + 1 } else a) := by
  induction m with
  | nil => simp [lookupA, bumpCount]
  | cons p t ih =>
    by_cases hp : p.1 = k
    · by_cases hk : p.1 = k'
      · simp [bumpCount, lookupA, hp, hk, hp ▸ hk]
      · have : ¬ k = k' := fun h => hk (hp.trans h)
        simp [bumpCount, lookupA, hp, hk, this]
    · by_cases hk : p.1 = k'
      · simp only [bumpCount, List.map_cons, if_pos hk, lookupA, if_neg hp]
        simpa [bumpCount] using ih
      · simp only [bumpCount, List.map_cons, if_neg hk, lookupA, if_neg hp]
        simpa [bumpCount] using ih

theorem processRow_preserves_agg {s : DState} {r : Row} {k : String}
    {agg : TypeAgg} (h : lookupA s.moduleTypes k = some agg) :
    ∃ agg', lookupA (processRow s r).moduleTypes k = some agg' ∧
      agg'.is_group = agg.is_group ∧ agg'.sample_title = agg.sample_title := by
  obtain ⟨mt, ta, cw⟩ := s
  simp only at h
  cases r with
  | header t =>
    simp only [processRow]
    rcases hw : findWeekNum t.toList with _ | n
    · simp only [hw]
      exact ⟨agg, h, rfl, rfl⟩
    · simp only [hw]
      split <;> exact ⟨agg, h, rfl, rfl⟩
  | item badge link =>
    cases cw with
    | none => exact ⟨agg, h, rfl, rfl⟩
    | some w =>
      cases badge with
      | none => exact ⟨agg, h, rfl, rfl⟩
      | some bt =>
        cases link with
        | none => exact ⟨agg, h, rfl, rfl⟩
        | some l =>
          simp only [processRow]
          split
          · split
            · split
              · rename_i module_type _
                rw [lookupA_bumpCount]
                by_cases hmem : lookupA mt module_type = none
                · rw [if_pos hmem, lookupA_append_single, h]
                  exact ⟨_, rfl, by split <;> rfl, by split <;> rfl⟩
                · rw [if_neg hmem, h]
                  exact ⟨_, rfl, by split <;> rfl, by split <;> rfl⟩
              · exact ⟨agg, h, rfl, rfl⟩
            · exact ⟨agg, h, rfl, rfl⟩
          · exact ⟨agg, h, rfl, rfl⟩

theorem foldl_preserves_agg (rows : List Row) :
    ∀ (s : DState) (k : String) (agg : TypeAgg),
      lookupA s.moduleTypes k = some agg →
      ∃ agg', lookupA (rows.foldl processRow s).moduleTypes k = some agg' ∧
        agg'.is_group = agg.is_group ∧ agg'.sample_title = agg.sample_title := by
  induction rows with
  | nil => exact fun s k agg h => ⟨agg, h, rfl, rfl⟩
  | cons r rs ih =>
    intro s k agg h
    obtain ⟨agg1, h1, hg1, ht1⟩ := processRow_preserves_agg (r := r) h
    obtain ⟨agg2, h2, hg2, ht2⟩ := ih (processRow s r) k agg1 h1
    exact ⟨agg2, h2, hg2.trans hg1, ht2.trans ht1⟩

/-- C10: once a module type's aggregate exists, later rows never change its
group-flag or sample title (they can only bump the count); and the
aggregate created for a new type takes count 1 and the creating row's own
icon flag and link text. -/
theorem c10_theorem :
    (∀ (rows : List Row) (s : DState) (k : String) (agg : TypeAgg),
      lookupA s.moduleTypes k = some agg →
      ∃ agg', lookupA (rows.foldl processRow s).moduleTypes k = some agg' ∧
        agg'.is_group = agg.is_group ∧ agg'.sample_title = agg.sample_title) ∧
    (∀ (s : DState) (badge : Option String) (link : Option LinkInfo)
      (k : String) (agg' : TypeAgg),
      lookupA s.moduleTypes k = none →
      lookupA (processRow s (.item badge link)).moduleTypes k = some agg' →
      ∃ li, link = some li ∧ agg' = ⟨1, li.hasUsersIcon, li.text⟩) := by
  constructor
  · exact fun rows s k agg h => foldl_preserves_agg rows s k agg h
  · intro s badge link k agg' hnone hafter
    obtain ⟨mt, ta, cw⟩ := s
    simp only at hnone
    cases cw with
    | none => simp only [processRow] at hafter; simp_all
    | some w =>
      cases badge with
      | none => simp only [processRow] at hafter; simp_all
      | some bt =>
        cases link with
        | none => simp only [processRow] at hafter; simp_all
        | some l =>
          simp only [processRow] at hafter
          refine ⟨l, rfl, ?_⟩
          split at hafter
          · split at hafter
            · split at hafter
              · rename_i module_type _
                rw [lookupA_bumpCount] at hafter
                by_cases hmem : lookupA mt module_type = none
                · rw [if_pos hmem, lookupA_append_single, hnone] at hafter
                  by_cases hk : module_type = k
                  · subst hk
                    simp at hafter
                    simp [← hafter]
                  · rw [if_neg hk] at hafter
                    simp at hafter
                · rw [if_neg hmem, hnone] at hafter
                  simp at hafter
              · rw [hnone] at hafter; simp at hafter
            · rw [hnone] at hafter; simp at hafter
          · rw [hnone] at hafter; simp at hafter

/-- C10 witness: a second `HW` row with a different icon flag and title
only bumps the count; the first row's flag and title survive, and the
initial insertion carries the first row's own data with count 1. -/
def c10link1 : LinkInfo := ⟨"/pl/a/assessment/1", "first title", false⟩

def c10link2 : LinkInfo := ⟨"/pl/a/assessment/2", "second title", true⟩

def c10agg : TypeAgg := ⟨1, false, "first title"⟩

theorem c10_witness :
    lookupA [("HW", c10agg)] "HW" = some c10agg ∧
    (∃ agg', lookupA (([Row.item (some "HW2") (some c10link2)]).foldl processRow
        ⟨[("HW", c10agg)], [], some 1⟩).moduleTypes "HW" = some agg' ∧
      agg'.is_group = c10agg.is_group ∧ agg'.sample_title = c10agg.sample_title) ∧
    lookupA ([] : List (String × TypeAgg)) "HW" = none ∧
    (∃ li, some c10link1 = some li ∧ c10agg = ⟨1, li.hasUsersIcon, li.text⟩) :=
  ⟨by decide,
   c10_theorem.1 [Row.item (some "HW2") (some c10link2)]
     ⟨[("HW", c10agg)], [], some 1⟩ "HW" c10agg (by decide),
   rfl,
   c10_theorem.2 ⟨[], [], some 1⟩ (some "HW1") (some c10link1) "HW" c10agg
     rfl (by decide)⟩

/-! ## C2 — resume decision for the per-question loop -/

/-- C2: when the target folder holds a valid `index.html`, a non-empty
`images/` folder and a screenshot, the loop step marks the question
complete and skips — the result is the same whatever the fetch body would
do, so the question's URL is never navigated to and nothing is rewritten;
conversely an `index.html` below the size threshold fails validation and
the step runs the fetch body. -/
theorem c2_theorem (output_dir week assessName : String) (fs : FS)
    (completed : List String) (q : QuestionRec) :
    (∀ body, completed.contains (assessName ++ "_" ++ q.title) = false →
      validate_html_file fs
        (questionFolder output_dir week assessName q ++ "/index.html") = true →
      fs.pathExists (questionFolder output_dir week assessName q ++ "/images") = true →
      fs.listDirLen (questionFolder output_dir week assessName q ++ "/images") ≠ 0 →
      fs.pathExists (questionFolder output_dir week assessName q ++ "/render.png") = true →
      processQuestion body output_dir week assessName fs completed q =
        (completed ++ [assessName ++ "_" ++ q.title], .skippedExisting)) ∧
    (∀ body sz, completed.contains (assessName ++ "_" ++ q.title) = false →
      fs.getSize (questionFolder output_dir week assessName q ++ "/index.html") =
        some sz →
      sz < 1000 →
      validate_html_file fs
        (questionFolder output_dir week assessName q ++ "/index.html") = false ∧
      ∃ ok, (processQuestion body output_dir week assessName fs completed q).2 =
        .fetched ok) := by
  constructor
  · intro body hc hv hi hl hs
    have hm : assessName ++ "_" ++ q.title ∉ completed := by simpa using hc
    simp [processQuestion, hm, hv, hi, hl, hs]
  · intro body sz hc hsz hlt
    have hv : validate_html_file fs
        (questionFolder output_dir week assessName q ++ "/index.html") = false := by
      unfold validate_html_file
      rcases hpe : fs.pathExists
          (questionFolder output_dir week assessName q ++ "/index.html") with _ | _
      · simp
      · simp [hpe, hsz, hlt]
    refine ⟨hv, ?_⟩
    have hm : assessName ++ "_" ++ q.title ∉ completed := by simpa using hc
    rcases hb : body q with e | u
    · exact ⟨false, by simp [processQuestion, hm, hv, hb]⟩
    · exact ⟨true, by simp [processQuestion, hm, hv, hb]⟩

/-- C2 witness: a concrete filesystem with a complete folder is skipped
(for two different bodies, with the same result), and one with a 900-byte
`index.html` fails validation and reaches the fetch body. -/
def c2q : QuestionRec := ⟨"General", "Q1", "https://us.prairielearn.com/pl/x"⟩

def c2out : String := "out"

def c2week : String := "Week_1"

def c2assess : String := "HW1"

def c2folder : String := questionFolder c2out c2week c2assess c2q

def c2fsGood : FS :=
  { pathExists := fun p =>
      p = c2folder ++ "/index.html" || p = c2folder ++ "/images" ||
        p = c2folder ++ "/render.png"
    getSize := fun p => if p = c2folder ++ "/index.html" then some 2048 else none
    readText := fun p =>
      if p = c2folder ++ "/index.html" then some "<!DOCTYPE html><html></html>" else none
    listDirLen := fun p => if p = c2folder ++ "/images" then 3 else 0 }

def c2fsSmall : FS :=
  { c2fsGood with
    getSize := fun p => if p = c2folder ++ "/index.html" then some 900 else none }

theorem c2_witness :
    (processQuestion (fun _ => .ok ()) c2out c2week c2assess c2fsGood [] c2q =
        (["HW1_Q1"], .skippedExisting) ∧
      processQuestion (fun _ => .error "boom") c2out c2week c2assess c2fsGood [] c2q =
        (["HW1_Q1"], .skippedExisting)) ∧
    (validate_html_file c2fsSmall (c2folder ++ "/index.html") = false ∧
      ∃ ok, (processQuestion (fun _ => .ok ()) c2out c2week c2assess c2fsSmall [] c2q).2 =
        .fetched ok) :=
  ⟨⟨(c2_theorem c2out c2week c2assess c2fsGood [] c2q).1 (fun _ => .ok ())
      rfl (by decide) (by decide) (by decide) (by decide),
    (c2_theorem c2out c2week c2assess c2fsGood [] c2q).1 (fun _ => .error "boom")
      rfl (by decide) (by decide) (by decide) (by decide)⟩,
   (c2_theorem c2out c2week c2assess c2fsSmall [] c2q).2 (fun _ => .ok ()) 900
     rfl (by decide) (by decide)⟩

/-! ## C8 — one question's failure never aborts the loop -/

/-- C8: the per-assessment question loop emits exactly one action per
question, in order, for every fetch body — including bodies that raise on
every question; an exception is caught and the loop continues. -/
theorem c8_theorem (body : QuestionRec → Except String Unit)
    (output_dir week assessName : String) (fs : FS) :
    ∀ (qs : List QuestionRec) (completed : List String),
      (processQuestions body output_dir week assessName fs completed qs).2.length =
        qs.length := by
  intro qs
  induction qs with
  | nil => intro completed; rfl
  | cons q rest ih =>
    intro completed
    simp only [processQuestions]
    rw [List.length_cons, ih, List.length_cons]

/-! ## C9 — `download_with_retry` -/

theorem dwr_attempts_le (oracle : Nat → FetchResult) :
    ∀ (r i : Nat), countAttempts (dwrFrom oracle i r).2 ≤ r := by
  intro r
  induction r with
  | zero => intro i; simp [dwrFrom, countAttempts]
  | succ r ih =>
    intro i
    simp only [dwrFrom]
    rcases oracle i with ⟨code, body⟩ | _ | _
    · by_cases h200 : code = 200
      · simp [h200, countAttempts]
      · by_cases h401 : code = 401
        · simp [h200, h401, countAttempts]
        · simp only [if_neg h200, if_neg h401, countAttempts]
          have := ih (i + 1)
          omega
    · simp only [countAttempts]
      have := ih (i + 1)
      omega
    · simp only [countAttempts]
      have := ih (i + 1)
      omega

theorem dwr_first200 (oracle : Nat → FetchResult) :
    ∀ (r i j : Nat) (b : String), j < r →
      (∀ k, k < j → nonTerm (oracle (i + k))) →
      oracle (i + j) = .status 200 b →
      (dwrFrom oracle i r).1 = some b := by
  intro r
  induction r with
  | zero => omega
  | succ r ih =>
    intro i j b hj hpre h200
    cases j with
    | zero =>
      simp only [Nat.add_zero] at h200
      simp [dwrFrom, h200]
    | succ j =>
      have h0 : nonTerm (oracle i) := by
        have := hpre 0 (Nat.succ_pos j)
        simpa using this
      have hrec := ih (i + 1) j b (by omega)
        (fun k hk => by
          have := hpre (k + 1) (by omega)
          simpa [Nat.add_assoc, Nat.add_comm 1 k] using this)
        (by simpa [Nat.add_assoc, Nat.add_comm 1 j] using h200)
      simp only [dwrFrom]
      rcases ho : oracle i with ⟨code, body⟩ | _ | _
      · rw [ho] at h0
        obtain ⟨hne200, hne401⟩ := h0
        simp [if_neg hne200, if_neg hne401, hrec]
      · simp [hrec]
      · simp [hrec]

theorem dwr_backoff (oracle : Nat → FetchResult) :
    ∀ (r i j : Nat), j < r →
      (∀ k, k < j → nonTerm (oracle (i + k))) →
      raisedErr (oracle (i + j)) →
      Ev.slept (2 ^ (i + j)) ∈ (dwrFrom oracle i r).2 := by
  intro r
  induction r with
  | zero => omega
  | succ r ih
  =>
    intro i j hj hpre herr
    cases j with
    | zero =>
      simp only [Nat.add_zero] at herr
      simp only [dwrFrom]
      rcases ho : oracle i with ⟨code, body⟩ | _ | _
      · rw [ho] at herr
        simp [raisedErr] at herr
      · simp
      · simp
    | succ j =>
      have h0 : nonTerm (oracle i) := by
        have := hpre 0 (Nat.succ_pos j)
        simpa using this
      have hrec := ih (i + 1) j (by omega)
        (fun k hk => by
          have := hpre (k + 1) (by omega)
          simpa [Nat.add_assoc, Nat.add_comm 1 k] using this)
        (by simpa [Nat.add_assoc, Nat.add_comm 1 j] using herr)
      have hshift : i + 1 + j = i + (j + 1) := by omega
      rw [hshift] at hrec
      simp only [dwrFrom]
      rcases ho : oracle i with ⟨code, body⟩ | _ | _
      · rw [ho] at h0
        obtain ⟨hne200, hne401⟩ := h0
        simp [if_neg hne200, if_neg hne401, hrec]
      · simp [hrec]
      · simp [hrec]

theorem dwr_auth (oracle : Nat → FetchResult) :
    ∀ (r i j : Nat) (b : String), j < r →
      (∀ k, k < j → nonTerm (oracle (i + k))) →
      oracle (i + j) = .status 401 b →
      (dwrFrom oracle i r).1 = none ∧
      countAttempts (dwrFrom oracle i r).2 = j + 1 ∧
      Ev.authLogged ∈ (dwrFrom oracle i r).2 := by
  intro r
  induction r with
  | zero => omega
  | succ r ih =>
    intro i j b hj hpre h401
    cases j with
    | zero =>
      simp only [Nat.add_zero] at h401
      refine ⟨?_, ?_, ?_⟩ <;> simp [dwrFrom, h401, countAttempts]
    | succ j =>
      have h0 : nonTerm (oracle i) := by
        have := hpre 0 (Nat.succ_pos j)
        simpa using this
      have hrec := ih (i + 1) j b (by omega)
        (fun k hk => by
          have := hpre (k + 1) (by omega)
          simpa [Nat.add_assoc, Nat.add_comm 1 k] using this)
        (by simpa [Nat.add_assoc, Nat.add_comm 1 j] using h401)
      obtain ⟨hr1, hr2, hr3⟩ := hrec
      simp only [dwrFrom]
      rcases ho : oracle i with ⟨code, body⟩ | _ | _
      · rw [ho] at h0
        obtain ⟨hne200, hne401⟩ := h0
        simp only [if_neg hne200, if_neg hne401, countAttempts]
        exact ⟨hr1, by omega, by simp [hr3]⟩
      · simp only [countAttempts]
        exact ⟨hr1, by omega, by simp [hr3]⟩
      · simp only [countAttempts]
        exact ⟨hr1, by omega, by simp [hr3]⟩

/-- C9: the retry loop makes at most `max_retries` attempts; it returns
the body of the first attempt whose status is 200; every attempt that
raises (timeout or generic exception) is followed by a `2 ** attempt`
backoff sleep; and an attempt returning 401 logs the session failure and
returns `None` immediately, with no further attempt. -/
theorem c9_theorem (oracle : Nat → FetchResult) (max_retries : Nat) :
    countAttempts (download_with_retry oracle max_retries).2 ≤ max_retries ∧
    (∀ i b, i < max_retries → (∀ k, k < i → nonTerm (oracle k)) →
      oracle i = .status 200 b →
      (download_with_retry oracle max_retries).1 = some b) ∧
    (∀ i, i < max_retries → (∀ k, k < i → nonTerm (oracle k)) →
      raisedErr (oracle i) →
      Ev.slept (2 ^ i) ∈ (download_with_retry oracle max_retries).2) ∧
    (∀ i b, i < max_retries → (∀ k, k < i → nonTerm (oracle k)) →
      oracle i = .status 401 b →
      (download_with_retry oracle max_retries).1 = none ∧
      countAttempts (download_with_retry oracle max_retries).2 = i + 1 ∧
      Ev.authLogged ∈ (download_with_retry oracle max_retries).2) :=
  ⟨dwr_attempts_le oracle max_retries 0,
   fun i b hi hpre h200 =>
     dwr_first200 oracle max_retries 0 i b hi
       (fun k hk => by simpa using hpre k hk) (by simpa using h200),
   fun i hi hpre herr => by
     have := dwr_backoff oracle max_retries 0 i hi
       (fun k hk => by simpa using hpre k hk) (by simpa using herr)
     simpa using this,
   fun i b hi hpre h401 =>
     dwr_auth oracle max_retries 0 i b hi
       (fun k hk => by simpa using hpre k hk) (by simpa using h401)⟩

/-- The oracle used by the C9 witness: a timeout, then a 500, then a 200. -/
def c9oracle : Nat → FetchResult
  | 0 => .timeout
  | 1 => .status 500 "server error"
  | _ => .status 200 "okbody"

def c9oracle401 : Nat → FetchResult
  | 0 => .timeout
  | _ => .status 401 "denied"

theorem c9_witness :
    (2 < MAX_RETRIES ∧ c9oracle 2 = .status 200 "okbody" ∧
      (download_with_retry c9oracle).1 = some "okbody") ∧
    (raisedErr (c9oracle 0) ∧
      Ev.slept (2 ^ 0) ∈ (download_with_retry c9oracle).2) ∧
    (c9oracle401 1 = .status 401 "denied" ∧
      (download_with_retry c9oracle401).1 = none ∧
      countAttempts (download_with_retry c9oracle401).2 = 2 ∧
      Ev.authLogged ∈ (download_with_retry c9oracle401).2) :=
  ⟨⟨by decide, by decide,
    (c9_theorem c9oracle MAX_RETRIES).2.1 2 "okbody" (by decide)
      (by decide) (by decide)⟩,
   ⟨by decide,
    (c9_theorem c9oracle MAX_RETRIES).2.2.1 0 (by decide)
      (by omega) (by decide)⟩,
   ⟨by decide,
    ((c9_theorem c9oracle401 MAX_RETRIES).2.2.2 1 "denied" (by decide)
      (by decide) (by decide)).1,
    ((c9_theorem c9oracle401 MAX_RETRIES).2.2.2 1 "denied" (by decide)
      (by decide) (by decide)).2.1,
    ((c9_theorem c9oracle401 MAX_RETRIES).2.2.2 1 "denied" (by decide)
      (by decide) (by decide)).2.2⟩⟩

/-! ## C7 — path-rewriter idempotence -/

/-- The literal text whose presence is necessary for a `src` match. -/
def srcTrigger (pat : List Char) : List Char :=
  's' :: 'r' :: 'c' :: '=' :: '"' :: pat

/-- The literal text whose presence is necessary for an `href` match. -/
def hrefTrigger (pat : List Char) : List Char :=
  'h' :: 'r' :: 'e' :: 'f' :: '=' :: '"' :: pat

theorem tryRest_some_starts {pat key r2 : List Char} {x : List Char × List Char}
    (h : tryRest pat key r2 = some x) : pat <+: r2 := by
  unfold tryRest at h
  split at h
  · rename_i hp
    exact List.isPrefixOf_iff_prefix.mp hp
  · simp at h

theorem tryMatch_some_trigger {pat cs : List Char} {x : List Char × List Char}
    (h : tryMatch pat cs = some x) :
    srcTrigger pat <+: cs ∨ hrefTrigger pat <+: cs := by
  unfold tryMatch at h
  split at h
  · rename_i r2
    obtain ⟨u, hu⟩ := tryRest_some_starts h
    exact .inl ⟨u, by simp [srcTrigger, hu]⟩
  · rename_i r2
    obtain ⟨u, hu⟩ := tryRest_some_starts h
    exact .inr ⟨u, by simp [hrefTrigger, hu]⟩
  · simp at h

theorem containsSub_of_starts {n cs : List Char} (h : n <+: cs) :
    containsSub n cs = true := by
  cases cs with
  | nil =>
    have : n = [] := List.prefix_nil.mp h
    subst this
    rfl
  | cons c t =>
    simp [containsSub, List.isPrefixOf_iff_prefix, h]

theorem containsSub_cons_false {m : List Char} {a : Char}
    {t : List Char} (h : containsSub m (a :: t) = false) :
    containsSub m t = false := by
  simp only [containsSub, Bool.or_eq_false_iff] at h
  exact h.2

theorem tryMatch_none_of_noTriggers {pat cs : List Char}
    (h1 : containsSub (srcTrigger pat) cs = false)
    (h2 : containsSub (hrefTrigger pat) cs = false) :
    tryMatch pat cs = none := by
  rcases hres : tryMatch pat cs with _ | x
  · rfl
  · rcases tryMatch_some_trigger hres with hp | hp
    · rw [containsSub_of_starts hp] at h1
      cases h1
    · rw [containsSub_of_starts hp] at h2
      cases h2

theorem substFuel_id (pat : List Char) :
    ∀ (f : Nat) (cs : List Char),
      containsSub (srcTrigger pat) cs = false →
      containsSub (hrefTrigger pat) cs = false →
      substFuel pat f cs = cs := by
  intro f
  induction f with
  | zero => intro cs _ _; rfl
  | succ f ih =>
    intro cs h1 h2
    cases cs with
    | nil => rfl
    | cons c t =>
      simp only [substFuel, tryMatch_none_of_noTriggers h1 h2]
      rw [ih t (containsSub_cons_false h1) (containsSub_cons_false h2)]

theorem subst_id {pat cs : List Char}
    (h1 : containsSub (srcTrigger pat) cs = false)
    (h2 : containsSub (hrefTrigger pat) cs = false) :
    subst pat cs = cs :=
  substFuel_id pat cs.length cs h1 h2

/-- C7 counterexample: the rewriter is **not** idempotent on every text.
In `src="/assets/Xsrc="/assets/yy"` the first pass absolutizes the value
`Xsrc=` (greedy up to the first closing quote); the rewritten text then
exposes a fresh `src="/assets/yy"` match, which only the second pass
rewrites, so the second application differs from the first. -/
theorem c7_counterexample :
    fixContent (fixContent "src=\"/assets/Xsrc=\"/assets/yy\"") ≠
      fixContent "src=\"/assets/Xsrc=\"/assets/yy\"" := by decide

/-- C7 (amended): applying the rewriter twice agrees with applying it once
on every text whose once-rewritten form no longer contains any of the
four match triggers `src="/assets/`, `href="/assets/`, `src="/pl/`,
`href="/pl/` — the typical case; a quoted value that itself ends in
`src=`/`href=` directly followed by another root-relative value can
reintroduce a trigger and defeat idempotence. -/
theorem c7_theorem (s : String)
    (hA1 : containsSub (srcTrigger "/assets/".toList) (fixContent s).toList = false)
    (hA2 : containsSub (hrefTrigger "/assets/".toList) (fixContent s).toList = false)
    (hP1 : containsSub (srcTrigger "/pl/".toList) (fixContent s).toList = false)
    (hP2 : containsSub (hrefTrigger "/pl/".toList) (fixContent s).toList = false) :
    fixContent (fixContent s) = fixContent s := by
  show String.mk (subst "/pl/".toList
    (subst "/assets/".toList (fixContent s).toList)) = fixContent s
  rw [subst_id hA1 hA2, subst_id hP1 hP2]
  rfl

/-- C7 witness: on a typical page fragment the once-rewritten output has
no residual trigger, so the second pass is a no-op. -/
def c7page : String :=
  "<img src=\"/assets/logo.png\"><a href=\"/pl/course_instance/1\">x</a>"

theorem c7_witness :
    containsSub (srcTrigger "/assets/".toList) (fixContent c7page).toList = false ∧
    containsSub (hrefTrigger "/pl/".toList) (fixContent c7page).toList = false ∧
    fixContent (fixContent c7page) = fixContent c7page :=
  ⟨by decide, by decide,
   c7_theorem c7page (by decide) (by decide) (by decide) (by decide)⟩

end Archiver

